import Mathlib

/-!
Shallow embedding of the LecsGO entity-component-system core
(`world.go`, `filter.go`, `helper.go`, and the accessor/pool code emitted by
`cmd/world-gen/world-gen.go`), together with proofs and refutations of the
specification claims.

Conventions of the embedding:
* Go `int16` generation arithmetic is modelled on `Int` with an explicit
  two's-complement wrap `wrap16` applied at every arithmetic step.
* Go slices become `List`, Go's `map[Entity]uint32` becomes an association
  list with Go-map-equivalent get/set/delete operations.
* `sort.Search(n, f)` (binary search for the smallest index satisfying a
  monotone predicate) is modelled by the equivalent linear least-index
  search; on the sorted masks the source applies it to, the two coincide.
* `DEBUG`-only panic branches are elided: they only abort, never change
  state, and the claims concern release-mode state evolution.
-/

namespace Ecs

/-- Go `int16` two's-complement wraparound, as a function on `Int`. -/
def wrap16 (z : Int) : Int := (z + 32768) % 65536 - 32768

/-- `Entity` is an index into the world's entity table (Go `int32`;
only nonnegative index values ever occur). -/
abbrev Entity := Nat

/-- `PackedEntity` - packed version of `Entity` (generation + index). -/
structure PackedEntity where
  gen : Int
  idx : Entity
  deriving DecidableEq, Repr

/-! ### BitSet (helper.go) -/

/-- Bits per chunk of the Go `BitSet` (`chunkSize = 64`). -/
def chunkSize : Nat := 64

/-- `NewBitSet cap` : `make([]chunkType, (cap-1)/chunkSize+1)` where the
subtraction is Go `uint16` arithmetic (underflows for `cap = 0`). -/
def NewBitSet (cap : Nat) : List Nat :=
  List.replicate (((cap + 65535) % 65536) / chunkSize + 1) 0

/-- `BitSet.Set`: `(*s)[i/chunkSize] |= 1 << (i%chunkSize)`. -/
def bitSet (s : List Nat) (i : Nat) : List Nat :=
  s.set (i / chunkSize) ((s.getD (i / chunkSize) 0) ||| (1 <<< (i % chunkSize)))

/-- `BitSet.Unset`: guarded `(*s)[i/chunkSize] &^= 1 << (i%chunkSize)`
(`&^` is Go's and-not on `uint64`). -/
def bitUnset (s : List Nat) (i : Nat) : List Nat :=
  if i / chunkSize + 1 ≤ s.length then
    s.set (i / chunkSize)
      ((s.getD (i / chunkSize) 0) &&& ((2 ^ 64 - 1) ^^^ (1 <<< (i % chunkSize))))
  else s

/-- `BitSet.Get`: `(*s)[i/chunkSize] & (1<<(i%chunkSize)) != 0`. -/
def bitGet (s : List Nat) (i : Nat) : Bool :=
  (s.getD (i / chunkSize) 0) &&& (1 <<< (i % chunkSize)) != 0

/-! ### sort.Search and sorted-mask maintenance -/

/-- Least index whose element is `≥ id` (`sort.Search(len, Mask[i] >= id)`). -/
def searchGE (mask : List Nat) (id : Nat) : Nat :=
  match mask with
  | [] => 0
  | x :: xs => if id ≤ x then 0 else searchGE xs id + 1

/-- Least index whose element is `> id` (`sort.Search(len, Mask[i] > id)`). -/
def searchGT (mask : List Nat) (id : Nat) : Nat :=
  match mask with
  | [] => 0
  | x :: xs => if id < x then 0 else searchGT xs id + 1

/-- The binary-search membership test inlined in `isCompatible`:
`idx := search; idx < len && Mask[idx] == id`. -/
def maskHas (mask : List Nat) (id : Nat) : Bool :=
  let idx := searchGE mask id
  decide (idx < mask.length) && (mask.getD idx 0 == id)

/-- The sorted-insertion sequence of the generated `Set<C>` accessor:
`append 0; copy tail right from maskIdx; Mask[maskIdx] = t`. -/
def maskInsert (mask : List Nat) (t : Nat) : List Nat :=
  let k := searchGT mask t
  mask.take k ++ t :: mask.drop k

/-- The sorted-removal sequence of the generated `Del<C>` accessor:
`copy(Mask[maskIdx:], Mask[maskIdx+1:]); Mask = Mask[:maskLen-1]`. -/
def maskRemove (mask : List Nat) (t : Nat) : List Nat :=
  let k := searchGE mask t
  (mask.take k ++ mask.drop (k + 1)).take (mask.length - 1)

/-! ### Go map operations (for `entitiesMap map[Entity]uint32`) -/

/-- Go map read: `m[k]` as an `Option`. -/
def mapGet (m : List (Entity × Nat)) (k : Entity) : Option Nat :=
  (m.find? (fun p => p.1 == k)).map (fun p => p.2)

/-- Go map delete: `delete(m, k)`. -/
def mapDel (m : List (Entity × Nat)) (k : Entity) : List (Entity × Nat) :=
  m.filter (fun p => !(p.1 == k))

/-- Go map write: `m[k] = v`. -/
def mapSet (m : List (Entity × Nat)) (k : Entity) (v : Nat) : List (Entity × Nat) :=
  (k, v) :: mapDel m k

/-! ### Filter (filter.go) -/

/-- `lockedChange` is `(Entity, Add)`; `Filter` - container for keeping
constraints-filtered entities.  `incl`/`excl` model the Go fields
`include`/`exclude` (renamed because `include` is a Lean keyword). -/
structure Filter where
  incl : List Nat
  excl : List Nat
  entities : List Entity
  entitiesMap : List (Entity × Nat)
  lockedChanges : List (Entity × Bool)
  lockCount : Int
  deriving DecidableEq, Repr

instance : Inhabited Filter := ⟨⟨[], [], [], [], [], 0⟩⟩

/-- `NewFilter` (capacity arguments only pre-size Go slices; dropped). -/
def NewFilter (incl excl : List Nat) : Filter :=
  { incl := incl, excl := excl, entities := [], entitiesMap := [],
    lockedChanges := [], lockCount := 0 }

/-- `Filter.Count`. -/
def Filter.Count (f : Filter) : Nat := f.entities.length

/-- `Filter.EntitiesWithLock`: increment the lock counter and return the
current dense entity sequence. -/
def Filter.EntitiesWithLock (f : Filter) : List Entity × Filter :=
  (f.entities, { f with lockCount := f.lockCount + 1 })

/-- The unlocked branch of `Filter.add`. -/
def Filter.addPure (f : Filter) (e : Entity) : Filter :=
  { f with entitiesMap := mapSet f.entitiesMap e f.entities.length,
           entities := f.entities ++ [e] }

/-- The unlocked branch of `Filter.remove`: swap-with-last removal.
A Go map read of an absent key yields the zero value, hence `getD 0`.
Note the moved last entity's map entry is *not* updated by the source. -/
def Filter.removePure (f : Filter) (e : Entity) : Filter :=
  let idx := (mapGet f.entitiesMap e).getD 0
  let lastIdx := f.entities.length - 1
  let ents := if idx < lastIdx then f.entities.set idx (f.entities.getD lastIdx 0)
              else f.entities
  { f with entities := ents.take lastIdx, entitiesMap := mapDel f.entitiesMap e }

/-- `Filter.add`. -/
def Filter.add (f : Filter) (e : Entity) : Filter :=
  if 0 < f.lockCount then
    { f with lockedChanges := f.lockedChanges ++ [(e, true)] }
  else f.addPure e

/-- `Filter.remove`. -/
def Filter.remove (f : Filter) (e : Entity) : Filter :=
  if 0 < f.lockCount then
    { f with lockedChanges := f.lockedChanges ++ [(e, false)] }
  else f.removePure e

/-- One step of the `Unlock` replay loop (`if v.Add { add } else { remove }`);
also the shape of every structural change issued against a filter. -/
def Filter.applyChange (f : Filter) (c : Entity × Bool) : Filter :=
  if c.2 then f.add c.1 else f.remove c.1

/-- Issuing a sequence of `noteAdd`/`noteRemove` changes against a filter. -/
def Filter.applyChanges (f : Filter) (cs : List (Entity × Bool)) : Filter :=
  cs.foldl Filter.applyChange f

/-- `Filter.Unlock`: decrement; when the counter reaches 0, replay the
pending queue in recorded order, then clear it. -/
def Filter.Unlock (f : Filter) : Filter :=
  let f1 : Filter := { f with lockCount := f.lockCount - 1 }
  if f1.lockCount = 0 then
    let g := f1.lockedChanges.foldl Filter.applyChange f1
    { g with lockedChanges := [] }
  else f1

/-! ### EntityData and World (world.go) -/

/-- `EntityData` - container for keeping internal entity data. -/
structure EntityData where
  Gen : Int
  BitMask : List Nat
  Mask : List Nat
  deriving DecidableEq, Repr

instance : Inhabited EntityData := ⟨⟨0, [], []⟩⟩

/-- `World` - container for all data.  The component pools of the generated
worlds are dense per-type value arrays indexed by entity (`pool<C> []C`);
component values are modelled as `Nat` with zero default.
`filtersByInclude`/`filtersByExclude` are recomputed on demand (they are
immutable after `NewWorld`). -/
structure World where
  filters : List Filter
  componentsCount : Nat
  Entities : List EntityData
  recycledEntities : List Entity
  Pools : List (List Nat)
  deriving DecidableEq, Repr

/-- Filter-index reverse lookup built by `NewWorld`: for component type `t`,
the filter indices whose `include` mentions `t`, in construction order. -/
def filtersByInclude (w : World) (t : Nat) : List Nat :=
  (List.range w.filters.length).flatMap
    (fun j => ((w.filters.getD j default).incl.filter (fun x => x == t)).map (fun _ => j))

/-- Reverse lookup over the `exclude` sets. -/
def filtersByExclude (w : World) (t : Nat) : List Nat :=
  (List.range w.filters.length).flatMap
    (fun j => ((w.filters.getD j default).excl.filter (fun x => x == t)).map (fun _ => j))

/-- `NewWorld`, specialised to the generated worlds: `specs` lists each
filter's `(include, exclude)` type-ID sets, one empty pool per component. -/
def NewWorld (n : Nat) (specs : List (List Nat × List Nat)) : World :=
  { filters := specs.map (fun s => NewFilter s.1 s.2),
    componentsCount := n,
    Entities := [],
    recycledEntities := [],
    Pools := List.replicate n [] }

/-- Entity-record read (`&w.Entities[entity]`). -/
def World.getEntity (w : World) (e : Entity) : EntityData :=
  w.Entities.getD e default

/-- Entity-record write-back. -/
def World.setEntityData (w : World) (e : Entity) (ed : EntityData) : World :=
  { w with Entities := w.Entities.set e ed }

/-- Mask of an entity, as stored in its record. -/
def World.mask (w : World) (e : Entity) : List Nat := (w.getEntity e).Mask

/-- `Filter.isCompatible`: every include ID found in the sorted mask by
binary search, no exclude ID found. -/
def Filter.isCompatible (f : Filter) (ed : EntityData) : Bool :=
  f.incl.all (fun id => maskHas ed.Mask id) &&
  f.excl.all (fun id => !maskHas ed.Mask id)

/-- `Filter.isCompatibleWithout`: same test with `typeID` treated as absent:
include IDs equal to `typeID` fail, exclude IDs equal to `typeID` are
skipped. -/
def Filter.isCompatibleWithout (f : Filter) (ed : EntityData) (typeID : Nat) : Bool :=
  f.incl.all (fun id => !(id == typeID) && maskHas ed.Mask id) &&
  f.excl.all (fun id => (id == typeID) || !maskHas ed.Mask id)

/-- Update filter number `j` in place. -/
def World.updFilterAt (w : World) (j : Nat) (g : Filter → Filter) : World :=
  { w with filters := w.filters.set j (g (w.filters.getD j default)) }

/-- `World.UpdateFilters`: fan the structural change of `componentType` on
`e` out to exactly the filters whose include/exclude sets mention it. -/
def World.UpdateFilters (w : World) (e : Entity) (componentType : Nat) (add : Bool) :
    World :=
  let ed := w.getEntity e
  let includeList := filtersByInclude w componentType
  let excludeList := filtersByExclude w componentType
  if add then
    let w1 := includeList.foldl
      (fun acc j => acc.updFilterAt j
        (fun f => if f.isCompatible ed then f.add e else f)) w
    excludeList.foldl
      (fun acc j => acc.updFilterAt j
        (fun f => if f.isCompatibleWithout ed componentType then f.remove e else f)) w1
  else
    let w1 := includeList.foldl
      (fun acc j => acc.updFilterAt j
        (fun f => if f.isCompatible ed then f.remove e else f)) w
    excludeList.foldl
      (fun acc j => acc.updFilterAt j
        (fun f => if f.isCompatibleWithout ed componentType then f.add e else f)) w1

/-- `World.NewEntity`: pop the recycled stack (append/pop-last LIFO) and
flip the generation sign, or append a fresh record with generation 1 and
grow every pool by one slot. -/
def World.NewEntity (w : World) : Entity × World :=
  match w.recycledEntities.getLast? with
  | some entity =>
      let ed := w.getEntity entity
      (entity,
        { w.setEntityData entity { ed with Gen := wrap16 (-ed.Gen) } with
            recycledEntities := w.recycledEntities.dropLast })
  | none =>
      let entity := w.Entities.length
      (entity,
        { w with
            Entities := w.Entities ++
              [{ Gen := 1, BitMask := NewBitSet w.componentsCount, Mask := [] }],
            Pools := w.Pools.map (fun p => p ++ [0]) })

/-- `pool<C>.Recycle(idx)`: reset slot `idx` of pool `t` to the default. -/
def World.poolRecycleAt (w : World) (t : Nat) (idx : Nat) : World :=
  { w with Pools := w.Pools.set t ((w.Pools.getD t []).set idx 0) }

/-- One iteration of the `DelEntity` component-unwind loop, for the type ID
`typeID` currently last in the mask: update filters (mask still intact),
recycle the pool slot, then truncate the mask and clear the bit. -/
def World.delStep (w : World) (e : Entity) (typeID : Nat) : World :=
  let w1 := w.UpdateFilters e typeID false
  let w2 := w1.poolRecycleAt typeID e
  let ed := w2.getEntity e
  w2.setEntityData e
    { ed with Mask := ed.Mask.dropLast, BitMask := bitUnset ed.BitMask typeID }

/-- The `DelEntity` loop runs over the mask from the end; each iteration
removes exactly the last element, so it folds over the initial mask
reversed. -/
def World.delLoop (w : World) (e : Entity) : List Nat → World
  | [] => w
  | t :: ts => World.delLoop (w.delStep e t) e ts

/-- `World.DelEntity`: unwind all components (filters first), then
increment the generation (Go `int16`, wrapping `0 → 1`), store it negated,
and push the slot on the recycled stack. -/
def World.DelEntity (w : World) (e : Entity) : World :=
  let ed := w.getEntity e
  let gen := ed.Gen
  let w1 := w.delLoop e ed.Mask.reverse
  let gen1 := wrap16 (gen + 1)
  let gen2 := if gen1 = 0 then 1 else gen1
  let ed1 := w1.getEntity e
  { w1.setEntityData e { ed1 with Gen := wrap16 (-gen2) } with
      recycledEntities := w1.recycledEntities ++ [e] }

/-- `World.PackEntity`. -/
def World.PackEntity (w : World) (entity : Entity) : PackedEntity :=
  { gen := (w.getEntity entity).Gen, idx := entity }

/-- `World.UnpackEntity`: `(0, false)` on generation mismatch. -/
def World.UnpackEntity (w : World) (p : PackedEntity) : Entity × Bool :=
  if p.gen ≠ (w.getEntity p.idx).Gen then (0, false) else (p.idx, true)

/-! ### Generated accessors (world-gen.go template, for type index `i`) -/

/-- The state of the world at the `UpdateFilters` call inside the generated
`Set<C>` accessor: the bit is already set and the type ID already inserted
into the sorted mask. -/
def World.setCompPre (w : World) (e : Entity) (i : Nat) : World :=
  let ed := w.getEntity e
  w.setEntityData e
    { ed with BitMask := bitSet ed.BitMask i, Mask := maskInsert ed.Mask i }

/-- Generated `Set<C>` accessor for component index `i`: attach if absent,
then return (a pointer to) `(*pool)[entity]` - modelled by returning the
accessed pool slot index, which is the entity index itself. -/
def World.SetComp (w : World) (e : Entity) (i : Nat) : World × Nat :=
  if bitGet (w.getEntity e).BitMask i then (w, e)
  else (((w.setCompPre e i).UpdateFilters e i true), e)

/-- Generated `Get<C>` accessor: `nil` when the bit is unset, otherwise a
pointer to `(*pool)[entity]` - modelled as the accessed slot index. -/
def World.GetComp (w : World) (e : Entity) (i : Nat) : Option Nat :=
  if bitGet (w.getEntity e).BitMask i then some e else none

/-- Generated `Del<C>` accessor: on the non-last component, update filters
(mask still intact), recycle the pool slot, shrink the sorted mask, clear
the bit; on the last component, destroy the whole entity. -/
def World.DelComp (w : World) (e : Entity) (i : Nat) : World :=
  let ed := w.getEntity e
  if bitGet ed.BitMask i then
    if 1 < ed.Mask.length then
      let w1 := w.UpdateFilters e i false
      let w2 := w1.poolRecycleAt i e
      let ed2 := w2.getEntity e
      w2.setEntityData e
        { ed2 with Mask := maskRemove ed2.Mask i, BitMask := bitUnset ed2.BitMask i }
    else w.DelEntity e
  else w

/-! ### Operations, validity, reachability -/

/-- The structural operations a user can issue against a world. -/
inductive Op where
  | newEntity : Op
  | delEntity (e : Entity) : Op
  | setComp (e : Entity) (i : Nat) : Op
  | delComp (e : Entity) (i : Nat) : Op
  | lock (j : Nat) : Op
  | unlock (j : Nat) : Op
  deriving DecidableEq, Repr

/-- Effect of one operation. -/
def applyOp (w : World) : Op → World
  | .newEntity => (w.NewEntity).2
  | .delEntity e => w.DelEntity e
  | .setComp e i => (w.SetComp e i).1
  | .delComp e i => w.DelComp e i
  | .lock j => w.updFilterAt j (fun f => (f.EntitiesWithLock).2)
  | .unlock j => w.updFilterAt j Filter.Unlock

/-- A slot that exists and is not in the recycled pool. -/
def World.alive (w : World) (e : Entity) : Prop :=
  e < w.Entities.length ∧ e ∉ w.recycledEntities

instance (w : World) (e : Entity) : Decidable (w.alive e) := by
  unfold World.alive; infer_instance

/-- The contract under which each operation may be issued (violations are
programmer errors / diagnostic-build panics in the source). -/
def ValidOp (w : World) : Op → Prop
  | .newEntity => True
  | .delEntity e => w.alive e
  | .setComp e i => w.alive e ∧ i < w.componentsCount
  | .delComp e i => w.alive e ∧ i < w.componentsCount
  | .lock j => j < w.filters.length
  | .unlock j => j < w.filters.length ∧ 0 < (w.filters.getD j default).lockCount

instance (w : World) (op : Op) : Decidable (ValidOp w op) := by
  cases op <;> (unfold ValidOp; infer_instance)

/-- World states reachable from `NewWorld n specs` by valid operations. -/
inductive Reachable (n : Nat) (specs : List (List Nat × List Nat)) : World → Prop
  | init : Reachable n specs (NewWorld n specs)
  | step {w : World} {op : Op} : Reachable n specs w → ValidOp w op →
      Reachable n specs (applyOp w op)

/-- Applying a list of operations in order. -/
def applyOps (w : World) (ops : List Op) : World :=
  ops.foldl applyOp w

/-! ### Arithmetic facts about the `int16` wrap -/

theorem wrap16_bounds (z : Int) : -32768 ≤ wrap16 z ∧ wrap16 z ≤ 32767 := by
  unfold wrap16; omega

theorem wrap16_eq_self {z : Int} (h1 : -32768 ≤ z) (h2 : z ≤ 32767) : wrap16 z = z := by
  unfold wrap16; omega

theorem wrap16_add_left (a b : Int) : wrap16 (wrap16 a + b) = wrap16 (a + b) := by
  unfold wrap16; omega

theorem wrap16_neg_wrap16 (z : Int) : wrap16 (-wrap16 z) = wrap16 (-z) := by
  unfold wrap16; omega

theorem wrap16_eq_zero {z : Int} : wrap16 z = 0 ↔ z % 65536 = 0 := by
  unfold wrap16; omega

/-! ### BitSet lemmas -/

theorem getD_set_self {α : Type} (l : List α) (k : Nat) (v d : α) (h : k < l.length) :
    (l.set k v).getD k d = v := by
  simp [List.getD_eq_getElem?_getD, List.getElem?_set, h]

theorem getD_set_other {α : Type} (l : List α) (k m : Nat) (v d : α) (h : k ≠ m) :
    (l.set k v).getD m d = l.getD m d := by
  simp [List.getD_eq_getElem?_getD, List.getElem?_set, h]

theorem getD_append_left {α : Type} (l l2 : List α) (n : Nat) (d : α)
    (h : n < l.length) : (l ++ l2).getD n d = l.getD n d := by
  simp [List.getD_eq_getElem?_getD, List.getElem?_append, h]

theorem getD_append_last {α : Type} (l : List α) (x d : α) :
    (l ++ [x]).getD l.length d = x := by
  simp [List.getD_eq_getElem?_getD]

theorem mem_of_getLast?_eq {α : Type} {l : List α} {x : α} (h : l.getLast? = some x) :
    x ∈ l := by
  cases l with
  | nil => simp at h
  | cons a as =>
    rw [List.getLast?_eq_getLast (a :: as) (by simp)] at h
    have hx : x = (a :: as).getLast (by simp) := by simpa using h.symm
    rw [hx]
    exact List.getLast_mem _

theorem getD_replicate (n k : Nat) : (List.replicate n (0 : Nat)).getD k 0 = 0 := by
  simp [List.getD_eq_getElem?_getD, List.getElem?_replicate]
  split <;> simp

theorem bitGet_eq_testBit (s : List Nat) (j : Nat) :
    bitGet s j = (s.getD (j / chunkSize) 0).testBit (j % chunkSize) := by
  unfold bitGet
  rcases h : (s.getD (j / chunkSize) 0).testBit (j % chunkSize) with _ | _ <;>
    · simp only [bne_iff_ne, ne_eq, Nat.shiftLeft_eq, one_mul]
      rw [Nat.and_two_pow, h]
      simp

theorem bitGet_replicate_zero (n j : Nat) : bitGet (List.replicate n 0) j = false := by
  rw [bitGet_eq_testBit, getD_replicate, Nat.zero_testBit]

theorem bitGet_NewBitSet (cap j : Nat) : bitGet (NewBitSet cap) j = false := by
  unfold NewBitSet; exact bitGet_replicate_zero _ _

theorem bitSet_length (s : List Nat) (i : Nat) : (bitSet s i).length = s.length := by
  unfold bitSet; exact List.length_set s _ _

theorem bitUnset_length (s : List Nat) (i : Nat) : (bitUnset s i).length = s.length := by
  unfold bitUnset; split
  · exact List.length_set s _ _
  · rfl

theorem bitGet_bitSet_self (s : List Nat) (i : Nat) (h : i / chunkSize < s.length) :
    bitGet (bitSet s i) i = true := by
  rw [bitGet_eq_testBit]
  unfold bitSet
  rw [getD_set_self _ _ _ _ h]
  simp [Nat.testBit_or, Nat.shiftLeft_eq, Nat.testBit_two_pow]

theorem bitGet_bitSet_other (s : List Nat) (i j : Nat) (hne : i ≠ j) :
    bitGet (bitSet s i) j = bitGet s j := by
  rw [bitGet_eq_testBit, bitGet_eq_testBit]
  unfold bitSet
  by_cases hd : i / chunkSize = j / chunkSize
  · rcases Nat.lt_or_ge (j / chunkSize) s.length with hl | hl
    · rw [hd, getD_set_self _ _ _ _ hl]
      have hmod : i % chunkSize ≠ j % chunkSize := by
        intro hm
        have h1 : i / 64 = j / 64 := hd
        have h2 : i % 64 = j % 64 := hm
        omega
      simp [Nat.testBit_or, Nat.shiftLeft_eq, Nat.testBit_two_pow, hmod]
    · rw [List.set_eq_of_length_le (by omega)]
  · rw [getD_set_other _ _ _ _ _ hd]

theorem bitGet_bitUnset_self (s : List Nat) (i : Nat) (h : i / chunkSize < s.length) :
    bitGet (bitUnset s i) i = false := by
  rw [bitGet_eq_testBit]
  unfold bitUnset
  rw [if_pos (by omega), getD_set_self _ _ _ _ h]
  have hm : i % chunkSize < 64 := by
    have : i % 64 < 64 := Nat.mod_lt _ (by omega)
    exact this
  rw [Nat.shiftLeft_eq, one_mul, Nat.testBit_and, Nat.testBit_xor,
    Nat.testBit_two_pow_sub_one, Nat.testBit_two_pow]
  simp [hm]

theorem bitGet_bitUnset_other (s : List Nat) (i j : Nat) (hne : i ≠ j) :
    bitGet (bitUnset s i) j = bitGet s j := by
  rw [bitGet_eq_testBit, bitGet_eq_testBit]
  unfold bitUnset
  split
  · by_cases hd : i / chunkSize = j / chunkSize
    · rcases Nat.lt_or_ge (j / chunkSize) s.length with hl | hl
      · rw [hd, getD_set_self _ _ _ _ hl]
        have hmod : i % chunkSize ≠ j % chunkSize := by
          intro hm
          have h1 : i / 64 = j / 64 := hd
          have h2 : i % 64 = j % 64 := hm
          omega
        have hj : j % chunkSize < 64 := by
          have : j % 64 < 64 := Nat.mod_lt _ (by omega)
          exact this
        rw [Nat.shiftLeft_eq, one_mul, Nat.testBit_and, Nat.testBit_xor,
          Nat.testBit_two_pow_sub_one, Nat.testBit_two_pow]
        simp [hmod, hj]
      · rw [List.set_eq_of_length_le (by omega)]
    · rw [getD_set_other _ _ _ _ _ hd]
  · rfl

/-! ### Sorted-mask lemmas -/

theorem maskInsert_nil (t : Nat) : maskInsert [] t = [t] := rfl

theorem searchGT_cons (x t : Nat) (xs : List Nat) :
    searchGT (x :: xs) t = if t < x then 0 else searchGT xs t + 1 := rfl

theorem searchGE_cons (x t : Nat) (xs : List Nat) :
    searchGE (x :: xs) t = if t ≤ x then 0 else searchGE xs t + 1 := rfl

theorem maskInsert_cons (x t : Nat) (xs : List Nat) :
    maskInsert (x :: xs) t =
      if t < x then t :: x :: xs else x :: maskInsert xs t := by
  unfold maskInsert
  rw [searchGT_cons]
  split
  · simp
  · simp [List.take_succ_cons, List.drop_succ_cons]

theorem mem_maskInsert (a t : Nat) (mask : List Nat) :
    a ∈ maskInsert mask t ↔ a = t ∨ a ∈ mask := by
  induction mask with
  | nil => simp [maskInsert_nil]
  | cons x xs ih =>
    rw [maskInsert_cons]
    split
    · simp
    · simp only [List.mem_cons, ih]
      tauto

theorem pairwise_maskInsert (t : Nat) (mask : List Nat)
    (hs : List.Pairwise (· < ·) mask) (ht : t ∉ mask) :
    List.Pairwise (· < ·) (maskInsert mask t) := by
  induction mask with
  | nil => simp [maskInsert_nil]
  | cons x xs ih =>
    rcases List.pairwise_cons.mp hs with ⟨hx, hxs⟩
    rw [maskInsert_cons]
    split
    · rename_i hlt
      refine List.pairwise_cons.mpr ⟨?_, hs⟩
      intro y hy
      rcases List.mem_cons.mp hy with rfl | hy2
      · exact hlt
      · exact lt_trans hlt (hx y hy2)
    · rename_i hnlt
      have hxt : x < t := by
        have : t ≠ x := fun h => ht (h ▸ List.mem_cons_self x xs)
        omega
      refine List.pairwise_cons.mpr ⟨?_, ih hxs (fun h => ht (List.mem_cons_of_mem x h))⟩
      intro y hy
      rcases (mem_maskInsert y t xs).mp hy with rfl | hy2
      · exact hxt
      · exact hx y hy2

theorem maskRemove_nil (t : Nat) : maskRemove [] t = [] := rfl

theorem maskRemove_cons (x t : Nat) (xs : List Nat) (ht : t ∈ x :: xs) :
    maskRemove (x :: xs) t =
      if t ≤ x then xs else x :: maskRemove xs t := by
  unfold maskRemove
  rw [searchGE_cons]
  split
  · simp
  · rename_i hnle
    have htxs : t ∈ xs := by
      rcases List.mem_cons.mp ht with rfl | h2
      · omega
      · exact h2
    have hxs : xs ≠ [] := by rintro rfl; simp at htxs
    have hlen : xs.length = (xs.length - 1) + 1 := by
      cases xs with
      | nil => exact absurd rfl hxs
      | cons a as => simp
    simp only [List.take_succ_cons, List.drop_succ_cons, List.length_cons,
      Nat.add_sub_cancel, List.cons_append]
    rw [hlen, List.take_succ_cons]
    simp

theorem maskRemove_eq_erase (t : Nat) (mask : List Nat)
    (hs : List.Pairwise (· < ·) mask) (ht : t ∈ mask) :
    maskRemove mask t = mask.erase t := by
  induction mask with
  | nil => simp at ht
  | cons x xs ih =>
    rcases List.pairwise_cons.mp hs with ⟨hx, hxs⟩
    rw [maskRemove_cons x t xs ht]
    split
    · rename_i hle
      have hxt : t = x := by
        rcases List.mem_cons.mp ht with rfl | h2
        · rfl
        · exact absurd (hx t h2) (by omega)
      rw [hxt, List.erase_cons_head]
    · rename_i hnle
      have hne : t ≠ x := by omega
      rw [List.erase_cons_tail (by simpa using fun h => hne h.symm)]
      have ht2 : t ∈ xs := by
        rcases List.mem_cons.mp ht with rfl | h2
        · omega
        · exact h2
      rw [ih hxs ht2]

theorem pairwise_lt_nodup {mask : List Nat} (hs : List.Pairwise (· < ·) mask) :
    mask.Nodup :=
  hs.imp (fun h => Nat.ne_of_lt h)

theorem getLast_not_mem_dropLast {mask : List Nat} (hs : mask.Nodup)
    {t : Nat} (h : mask.getLast? = some t) : t ∉ mask.dropLast := by
  cases mask with
  | nil => simp at h
  | cons x xs =>
    have hne : (x :: xs) ≠ [] := by simp
    have hsplit := List.dropLast_append_getLast hne
    have hget : (x :: xs).getLast hne = t := by
      rw [List.getLast?_eq_getLast (x :: xs) hne] at h
      simpa using h
    rw [hget] at hsplit
    rw [← hsplit] at hs
    rcases List.nodup_append.mp hs with ⟨_, _, hdisj⟩
    intro hmem
    have hmem2 : t ∈ (x :: xs).dropLast := hmem
    rw [← hsplit] at hmem2
    exact hdisj (by simpa using hmem2) (by simp)

/-! ### Structural facts: which operations touch which world fields -/

theorem foldl_updFilterAt_preserves (js : List Nat) (g : Filter → Filter) :
    ∀ w : World,
      (js.foldl (fun acc j => acc.updFilterAt j g) w).Entities = w.Entities ∧
      (js.foldl (fun acc j => acc.updFilterAt j g) w).recycledEntities =
        w.recycledEntities ∧
      (js.foldl (fun acc j => acc.updFilterAt j g) w).componentsCount =
        w.componentsCount ∧
      (js.foldl (fun acc j => acc.updFilterAt j g) w).Pools = w.Pools := by
  induction js with
  | nil => intro w; exact ⟨rfl, rfl, rfl, rfl⟩
  | cons j js ih => intro w; exact ih (w.updFilterAt j g)

theorem UpdateFilters_preserves (w : World) (e : Entity) (t : Nat) (b : Bool) :
    (w.UpdateFilters e t b).Entities = w.Entities ∧
    (w.UpdateFilters e t b).recycledEntities = w.recycledEntities ∧
    (w.UpdateFilters e t b).componentsCount = w.componentsCount ∧
    (w.UpdateFilters e t b).Pools = w.Pools := by
  unfold World.UpdateFilters
  split
  · obtain ⟨h1, h2, h3, h4⟩ := foldl_updFilterAt_preserves (filtersByInclude w t)
      (fun f => if f.isCompatible (w.getEntity e) then f.add e else f) w
    obtain ⟨g1, g2, g3, g4⟩ := foldl_updFilterAt_preserves (filtersByExclude w t)
      (fun f => if f.isCompatibleWithout (w.getEntity e) t then f.remove e else f) _
    exact ⟨g1.trans h1, g2.trans h2, g3.trans h3, g4.trans h4⟩
  · obtain ⟨h1, h2, h3, h4⟩ := foldl_updFilterAt_preserves (filtersByInclude w t)
      (fun f => if f.isCompatible (w.getEntity e) then f.remove e else f) w
    obtain ⟨g1, g2, g3, g4⟩ := foldl_updFilterAt_preserves (filtersByExclude w t)
      (fun f => if f.isCompatibleWithout (w.getEntity e) t then f.add e else f) _
    exact ⟨g1.trans h1, g2.trans h2, g3.trans h3, g4.trans h4⟩

theorem getEntity_congr {w1 w2 : World} (h : w1.Entities = w2.Entities) (e : Entity) :
    w1.getEntity e = w2.getEntity e := by
  unfold World.getEntity; rw [h]

theorem getEntity_setEntityData_self (w : World) (e : Entity) (ed : EntityData)
    (h : e < w.Entities.length) : (w.setEntityData e ed).getEntity e = ed := by
  unfold World.setEntityData World.getEntity
  exact getD_set_self _ _ _ _ h

theorem getEntity_setEntityData_other (w : World) (e e' : Entity) (ed : EntityData)
    (h : e ≠ e') : (w.setEntityData e ed).getEntity e' = w.getEntity e' := by
  unfold World.setEntityData World.getEntity
  exact getD_set_other _ _ _ _ _ h

theorem delStep_Entities (w : World) (e : Entity) (t : Nat) :
    (w.delStep e t).Entities =
      w.Entities.set e
        { w.getEntity e with
            Mask := (w.getEntity e).Mask.dropLast
            BitMask := bitUnset (w.getEntity e).BitMask t } := by
  have hE := (UpdateFilters_preserves w e t false).1
  simp only [World.delStep, World.poolRecycleAt, World.setEntityData,
    World.getEntity, hE]

theorem delStep_recycled (w : World) (e : Entity) (t : Nat) :
    (w.delStep e t).recycledEntities = w.recycledEntities :=
  (UpdateFilters_preserves w e t false).2.1

theorem delStep_componentsCount (w : World) (e : Entity) (t : Nat) :
    (w.delStep e t).componentsCount = w.componentsCount :=
  (UpdateFilters_preserves w e t false).2.2.1

/-! ### The reachable-state invariant on entity records -/

/-- Length of a `BitSet` created for `n` component types. -/
def bitLen (n : Nat) : Nat := ((n + 65535) % 65536) / chunkSize + 1

theorem NewBitSet_length (n : Nat) : (NewBitSet n).length = bitLen n := by
  simp [NewBitSet, bitLen]

theorem div_chunk_lt_bitLen {i n : Nat} (hi : i < n) (hn : n ≤ 65535) :
    i / chunkSize < bitLen n := by
  have h1 : i / 64 < (n + 65535) % 65536 / 64 + 1 := by omega
  exact h1

/-- Per-entity-record invariant: canonical nonzero `int16` generation,
strictly ascending bounded mask, bitmap of the right width agreeing with
the mask. -/
def EntityInv (n : Nat) (ed : EntityData) : Prop :=
  -32768 ≤ ed.Gen ∧ ed.Gen ≤ 32767 ∧ ed.Gen ≠ 0 ∧
  List.Pairwise (· < ·) ed.Mask ∧
  (∀ t ∈ ed.Mask, t < n) ∧
  ed.BitMask.length = bitLen n ∧
  (∀ i, i < n → (bitGet ed.BitMask i = true ↔ i ∈ ed.Mask))

/-- World-level invariant: every record satisfies `EntityInv`, the recycled
stack holds valid slot indices with empty masks, without duplicates. -/
def WorldInv (n : Nat) (w : World) : Prop :=
  w.componentsCount = n ∧
  (∀ e, e < w.Entities.length → EntityInv n (w.getEntity e)) ∧
  (∀ e, e ∈ w.recycledEntities →
    e < w.Entities.length ∧ (w.getEntity e).Mask = []) ∧
  w.recycledEntities.Nodup

theorem WorldInv_NewWorld (n : Nat) (specs : List (List Nat × List Nat)) :
    WorldInv n (NewWorld n specs) := by
  refine ⟨rfl, ?_, ?_, ?_⟩ <;> simp [NewWorld]

theorem eq_nil_of_getLast?_eq_none {α : Type} {l : List α}
    (h : l.getLast? = none) : l = [] := by
  cases l with
  | nil => rfl
  | cons a as => simp [List.getLast?_concat] at h

theorem WorldInv_NewEntity {n : Nat} {w : World} (h : WorldInv n w) :
    WorldInv n (w.NewEntity).2 := by
  obtain ⟨hcc, hent, hrec, hnd⟩ := h
  unfold World.NewEntity
  cases hL : w.recycledEntities.getLast? with
  | some e0 =>
    simp only
    have he0m : e0 ∈ w.recycledEntities := mem_of_getLast?_eq hL
    obtain ⟨he0len, he0mask⟩ := hrec e0 he0m
    obtain ⟨g1, g2, g3, gp, gb, gl, ga⟩ := hent e0 he0len
    refine ⟨hcc, ?_, ?_, ?_⟩
    · intro e he
      have helen : e < w.Entities.length := by
        simpa [World.setEntityData] using he
      by_cases heq : e = e0
      · subst heq
        rw [show ({ w.setEntityData e { w.getEntity e with
              Gen := wrap16 (-(w.getEntity e).Gen) } with
              recycledEntities := w.recycledEntities.dropLast } : World).getEntity e =
            { w.getEntity e with Gen := wrap16 (-(w.getEntity e).Gen) } from
          getEntity_setEntityData_self _ _ _ helen]
        obtain ⟨b1, b2⟩ := wrap16_bounds (-(w.getEntity e).Gen)
        refine ⟨b1, b2, ?_, gp, gb, gl, ga⟩
        rw [Ne, wrap16_eq_zero]
        omega
      · rw [show ({ w.setEntityData e0 { w.getEntity e0 with
              Gen := wrap16 (-(w.getEntity e0).Gen) } with
              recycledEntities := w.recycledEntities.dropLast } : World).getEntity e =
            w.getEntity e from getEntity_setEntityData_other _ _ _ _ (Ne.symm heq)]
        exact hent e helen
    · intro e he
      have he' : e ∈ w.recycledEntities := (List.dropLast_sublist _).mem he
      have heq : e ≠ e0 := by
        intro hh
        exact getLast_not_mem_dropLast hnd hL (hh ▸ he)
      obtain ⟨hel, hem⟩ := hrec e he'
      constructor
      · simpa [World.setEntityData] using hel
      · rw [show ({ w.setEntityData e0 { w.getEntity e0 with
              Gen := wrap16 (-(w.getEntity e0).Gen) } with
              recycledEntities := w.recycledEntities.dropLast } : World).getEntity e =
            w.getEntity e from getEntity_setEntityData_other _ _ _ _ (Ne.symm heq)]
        exact hem
    · exact hnd.sublist (List.dropLast_sublist _)
  | none =>
    simp only
    have hrecnil : w.recycledEntities = [] := eq_nil_of_getLast?_eq_none hL
    refine ⟨hcc, ?_, ?_, ?_⟩
    · intro e he
      have hlen : e < w.Entities.length + 1 := by simpa using he
      rcases Nat.lt_or_ge e w.Entities.length with hlt | hge
      · have : ({ w with
              Entities := w.Entities ++
                [{ Gen := 1, BitMask := NewBitSet w.componentsCount, Mask := [] }],
              Pools := w.Pools.map (fun p => p ++ [0]) } : World).getEntity e =
            w.getEntity e := by
          unfold World.getEntity
          exact getD_append_left _ _ _ _ hlt
        rw [this]
        exact hent e hlt
      · have heq : e = w.Entities.length := by omega
        subst heq
        have : ({ w with
              Entities := w.Entities ++
                [{ Gen := 1, BitMask := NewBitSet w.componentsCount, Mask := [] }],
              Pools := w.Pools.map (fun p => p ++ [0]) } : World).getEntity
              w.Entities.length =
            { Gen := 1, BitMask := NewBitSet w.componentsCount, Mask := [] } := by
          unfold World.getEntity
          exact getD_append_last _ _ _
        rw [this]
        refine ⟨by norm_num, by norm_num, by norm_num, by simp, by simp, ?_, ?_⟩
        · show (NewBitSet w.componentsCount).length = bitLen n
          rw [NewBitSet_length, hcc]
        · intro i _
          show bitGet (NewBitSet w.componentsCount) i = true ↔ i ∈ ([] : List Nat)
          simp [bitGet_NewBitSet]
    · intro e he
      rw [show ({ w with
            Entities := w.Entities ++
              [{ Gen := 1, BitMask := NewBitSet w.componentsCount, Mask := [] }],
            Pools := w.Pools.map (fun p => p ++ [0]) } : World).recycledEntities =
          w.recycledEntities from rfl, hrecnil] at he
      simp at he
    · rw [show ({ w with
          Entities := w.Entities ++
            [{ Gen := 1, BitMask := NewBitSet w.componentsCount, Mask := [] }],
          Pools := w.Pools.map (fun p => p ++ [0]) } : World).recycledEntities =
        w.recycledEntities from rfl, hrecnil]
      exact List.nodup_nil

theorem delLoop_spec {n : Nat} (hn : n ≤ 65535) :
    ∀ (rm : List Nat) (w : World) (e : Entity),
      WorldInv n w → e < w.Entities.length →
      (w.getEntity e).Mask = rm.reverse →
      (w.delLoop e rm).Entities.length = w.Entities.length ∧
      (w.delLoop e rm).recycledEntities = w.recycledEntities ∧
      (w.delLoop e rm).componentsCount = w.componentsCount ∧
      (∀ e', e' ≠ e → (w.delLoop e rm).getEntity e' = w.getEntity e') ∧
      ((w.delLoop e rm).getEntity e).Mask = [] ∧
      ((w.delLoop e rm).getEntity e).Gen = (w.getEntity e).Gen ∧
      WorldInv n (w.delLoop e rm) := by
  intro rm
  induction rm with
  | nil =>
    intro w e h hlen hmask
    refine ⟨rfl, rfl, rfl, fun _ _ => rfl, by simpa using hmask, rfl, h⟩
  | cons t ts ih =>
    intro w e h hlen hmask
    obtain ⟨hcc, hent, hrec, hnd⟩ := h
    obtain ⟨g1, g2, g3, gp, gb, gl, ga⟩ := hent e hlen
    rw [List.reverse_cons] at hmask
    have hE2 := delStep_Entities w e t
    have hget2self : (w.delStep e t).getEntity e =
        { w.getEntity e with
            Mask := (w.getEntity e).Mask.dropLast
            BitMask := bitUnset (w.getEntity e).BitMask t } := by
      unfold World.getEntity
      rw [hE2]
      exact getD_set_self _ _ _ _ hlen
    have hget2other : ∀ e', e' ≠ e →
        (w.delStep e t).getEntity e' = w.getEntity e' := by
      intro e' hne
      unfold World.getEntity
      rw [hE2]
      exact getD_set_other _ _ _ _ _ (fun hh => hne hh.symm)
    have hlen2 : (w.delStep e t).Entities.length = w.Entities.length := by
      rw [hE2]; exact List.length_set _ _ _
    have hmask2 : ((w.delStep e t).getEntity e).Mask = ts.reverse := by
      rw [hget2self]
      show (w.getEntity e).Mask.dropLast = ts.reverse
      rw [hmask]
      exact List.dropLast_concat
    have htlast : t ∉ ts.reverse := by
      have hnodup : ((w.getEntity e).Mask).Nodup := pairwise_lt_nodup gp
      have hgl : ((w.getEntity e).Mask).getLast? = some t := by
        rw [hmask]; exact List.getLast?_concat _
      have := getLast_not_mem_dropLast hnodup hgl
      rw [hmask, List.dropLast_concat] at this
      exact this
    have htn : t < n := gb t (by rw [hmask]; simp)
    have hinv2 : WorldInv n (w.delStep e t) := by
      refine ⟨(delStep_componentsCount w e t).trans hcc, ?_, ?_, ?_⟩
      · intro e' he'
        rw [hlen2] at he'
        by_cases heq : e' = e
        · rw [heq, hget2self]
          refine ⟨g1, g2, g3, ?_, ?_, ?_, ?_⟩
          · exact gp.sublist (List.dropLast_sublist _)
          · intro u hu
            exact gb u ((List.dropLast_sublist _).mem hu)
          · show (bitUnset (w.getEntity e).BitMask t).length = bitLen n
            rw [bitUnset_length]; exact gl
          · intro i hi
            show bitGet (bitUnset (w.getEntity e).BitMask t) i = true ↔
              i ∈ (w.getEntity e).Mask.dropLast
            rw [hmask, List.dropLast_concat]
            by_cases hit : i = t
            · subst hit
              rw [bitGet_bitUnset_self _ _ (by rw [gl]; exact div_chunk_lt_bitLen htn hn)]
              simp [htlast]
            · rw [bitGet_bitUnset_other _ _ _ (fun hh => hit hh.symm)]
              rw [ga i hi, hmask]
              simp [hit]
        · rw [hget2other e' heq]
          exact hent e' he'
      · intro e' he'
        rw [delStep_recycled] at he'
        obtain ⟨hel, hem⟩ := hrec e' he'
        have heq : e' ≠ e := by
          intro hh
          subst hh
          rw [hem] at hmask
          exact absurd hmask.symm (by simp)
        rw [hget2other e' heq]
        exact ⟨by rw [hlen2]; exact hel, hem⟩
      · rw [delStep_recycled]; exact hnd
    obtain ⟨i1, i2, i3, i4, i5, i6, i7⟩ :=
      ih (w.delStep e t) e hinv2 (by rw [hlen2]; exact hlen) hmask2
    refine ⟨?_, ?_, ?_, ?_, ?_, ?_, ?_⟩
    · show ((w.delStep e t).delLoop e ts).Entities.length = w.Entities.length
      rw [i1, hlen2]
    · show ((w.delStep e t).delLoop e ts).recycledEntities = w.recycledEntities
      rw [i2, delStep_recycled]
    · show ((w.delStep e t).delLoop e ts).componentsCount = w.componentsCount
      rw [i3, delStep_componentsCount]
    · intro e' hne
      show ((w.delStep e t).delLoop e ts).getEntity e' = w.getEntity e'
      rw [i4 e' hne, hget2other e' hne]
    · exact i5
    · show (((w.delStep e t).delLoop e ts).getEntity e).Gen = (w.getEntity e).Gen
      rw [i6, hget2self]
    · exact i7

theorem DelEntity_spec {n : Nat} (hn : n ≤ 65535) {w : World} {e : Entity}
    (h : WorldInv n w) (halive : w.alive e) :
    WorldInv n (w.DelEntity e) ∧
    (w.DelEntity e).Entities.length = w.Entities.length ∧
    (w.DelEntity e).recycledEntities = w.recycledEntities ++ [e] ∧
    (∀ e', e' ≠ e → (w.DelEntity e).getEntity e' = w.getEntity e') ∧
    ((w.DelEntity e).getEntity e).Mask = [] ∧
    ((w.DelEntity e).getEntity e).Gen =
      wrap16 (-(if wrap16 ((w.getEntity e).Gen + 1) = 0 then 1
                else wrap16 ((w.getEntity e).Gen + 1))) := by
  obtain ⟨hlen, hnrec⟩ := halive
  obtain ⟨i1, i2, i3, i4, i5, i6, i7⟩ :=
    delLoop_spec hn ((w.getEntity e).Mask.reverse) w e h hlen
      (by rw [List.reverse_reverse])
  have hD : w.DelEntity e =
      { (w.delLoop e (w.getEntity e).Mask.reverse).setEntityData e
          { (w.delLoop e (w.getEntity e).Mask.reverse).getEntity e with
              Gen := wrap16 (-(if wrap16 ((w.getEntity e).Gen + 1) = 0 then 1
                               else wrap16 ((w.getEntity e).Gen + 1))) } with
          recycledEntities :=
            (w.delLoop e (w.getEntity e).Mask.reverse).recycledEntities ++ [e] } := rfl
  have hlenD : (w.DelEntity e).Entities.length = w.Entities.length := by
    rw [hD]
    show ((w.delLoop e (w.getEntity e).Mask.reverse).Entities.set e _).length =
      w.Entities.length
    rw [List.length_set]
    exact i1
  have hlen1 : e < (w.delLoop e (w.getEntity e).Mask.reverse).Entities.length := by
    rw [i1]; exact hlen
  have hgetself : (w.DelEntity e).getEntity e =
      { (w.delLoop e (w.getEntity e).Mask.reverse).getEntity e with
          Gen := wrap16 (-(if wrap16 ((w.getEntity e).Gen + 1) = 0 then 1
                           else wrap16 ((w.getEntity e).Gen + 1))) } := by
    rw [hD]
    show ((w.delLoop e (w.getEntity e).Mask.reverse).setEntityData e _).getEntity e = _
    exact getEntity_setEntityData_self _ _ _ hlen1
  have hgetother : ∀ e', e' ≠ e → (w.DelEntity e).getEntity e' = w.getEntity e' := by
    intro e' hne
    rw [hD]
    show ((w.delLoop e (w.getEntity e).Mask.reverse).setEntityData e _).getEntity e' = _
    rw [getEntity_setEntityData_other _ _ _ _ (fun hh => hne hh.symm)]
    exact i4 e' hne
  have hrecD : (w.DelEntity e).recycledEntities = w.recycledEntities ++ [e] := by
    rw [hD]
    show (w.delLoop e (w.getEntity e).Mask.reverse).recycledEntities ++ [e] = _
    rw [i2]
  obtain ⟨jcc, jent, jrec, jnd⟩ := i7
  have hgen2 : (-32768 ≤ (if wrap16 ((w.getEntity e).Gen + 1) = 0 then 1
        else wrap16 ((w.getEntity e).Gen + 1)) ∧
      (if wrap16 ((w.getEntity e).Gen + 1) = 0 then 1
        else wrap16 ((w.getEntity e).Gen + 1)) ≤ 32767 ∧
      (if wrap16 ((w.getEntity e).Gen + 1) = 0 then 1
        else wrap16 ((w.getEntity e).Gen + 1)) ≠ 0) := by
    obtain ⟨b1, b2⟩ := wrap16_bounds ((w.getEntity e).Gen + 1)
    split <;> refine ⟨by omega, by omega, by omega⟩
  refine ⟨⟨(by rw [hD]; exact jcc), ?_, ?_, ?_⟩, hlenD, hrecD, hgetother, ?_, ?_⟩
  · intro e' he'
    rw [hlenD, ← i1] at he'
    by_cases heq : e' = e
    · rw [heq, hgetself]
      obtain ⟨k1, k2, k3, kp, kb, kl, ka⟩ := jent e hlen1
      obtain ⟨b1, b2⟩ := wrap16_bounds
        (-(if wrap16 ((w.getEntity e).Gen + 1) = 0 then 1
           else wrap16 ((w.getEntity e).Gen + 1)))
      refine ⟨b1, b2, ?_, kp, kb, kl, ka⟩
      rw [Ne, wrap16_eq_zero]
      omega
    · rw [hgetother e' heq]
      have he2 : e' < w.Entities.length := by rw [← i1]; exact he'
      have := jent e' he'
      rw [i4 e' heq] at this
      exact this
  · intro e' he'
    rw [hrecD] at he'
    rcases List.mem_append.mp he' with hin | hsing
    · have hne : e' ≠ e := fun hh => hnrec (hh ▸ hin)
      obtain ⟨pl, pm⟩ := jrec e' (by rw [i2]; exact hin)
      rw [hgetother e' hne]
      constructor
      · rw [hlenD, ← i1]; exact pl
      · rw [i4 e' hne] at pm; exact pm
    · have heq : e' = e := by simpa using hsing
      rw [heq, hgetself]
      exact ⟨by rw [hlenD]; exact hlen, i5⟩
  · rw [hrecD]
    refine List.nodup_append.mpr ⟨h.2.2.2, List.nodup_singleton e, ?_⟩
    · intro a ha hb
      rw [List.mem_singleton] at hb
      exact hnrec (hb ▸ ha)
  · rw [hgetself]
    exact i5
  · rw [hgetself]

theorem WorldInv_of_eq_parts {n : Nat} {w1 w2 : World} (h : WorldInv n w1)
    (hE : w2.Entities = w1.Entities)
    (hR : w2.recycledEntities = w1.recycledEntities)
    (hC : w2.componentsCount = w1.componentsCount) : WorldInv n w2 := by
  obtain ⟨hcc, hent, hrec, hnd⟩ := h
  refine ⟨hC.trans hcc, ?_, ?_, ?_⟩
  · intro e he
    rw [getEntity_congr hE]
    exact hent e (by rw [← hE]; exact he)
  · intro e he
    rw [hR] at he
    obtain ⟨h1, h2⟩ := hrec e he
    rw [getEntity_congr hE, hE]
    exact ⟨h1, h2⟩
  · rw [hR]; exact hnd

theorem WorldInv_UpdateFilters {n : Nat} {w : World} (h : WorldInv n w)
    (e : Entity) (t : Nat) (b : Bool) : WorldInv n (w.UpdateFilters e t b) := by
  obtain ⟨h1, h2, h3, _⟩ := UpdateFilters_preserves w e t b
  exact WorldInv_of_eq_parts h h1 h2 h3

theorem WorldInv_setCompPre {n : Nat} (hn : n ≤ 65535) {w : World} {e : Entity}
    {i : Nat} (h : WorldInv n w) (halive : w.alive e) (hi : i < n)
    (hbit : bitGet (w.getEntity e).BitMask i = false) :
    WorldInv n (w.setCompPre e i) ∧
    i ∈ ((w.setCompPre e i).getEntity e).Mask ∧
    bitGet ((w.setCompPre e i).getEntity e).BitMask i = true := by
  obtain ⟨hlen, hnrec⟩ := halive
  obtain ⟨hcc, hent, hrec, hnd⟩ := h
  obtain ⟨g1, g2, g3, gp, gb, gl, ga⟩ := hent e hlen
  have hnotmem : i ∉ (w.getEntity e).Mask := by
    intro hmem
    rw [← ga i hi] at hmem
    rw [hbit] at hmem
    exact absurd hmem (by simp)
  have hgetself : (w.setCompPre e i).getEntity e =
      { w.getEntity e with
          BitMask := bitSet (w.getEntity e).BitMask i
          Mask := maskInsert (w.getEntity e).Mask i } := by
    unfold World.setCompPre
    exact getEntity_setEntityData_self _ _ _ hlen
  have hgetother : ∀ e', e' ≠ e → (w.setCompPre e i).getEntity e' = w.getEntity e' := by
    intro e' hne
    unfold World.setCompPre
    exact getEntity_setEntityData_other _ _ _ _ (fun hh => hne hh.symm)
  have hlenpre : (w.setCompPre e i).Entities.length = w.Entities.length := by
    unfold World.setCompPre World.setEntityData
    exact List.length_set _ _ _
  refine ⟨⟨hcc, ?_, ?_, ?_⟩, ?_, ?_⟩
  · intro e' he'
    rw [hlenpre] at he'
    by_cases heq : e' = e
    · rw [heq, hgetself]
      refine ⟨g1, g2, g3, ?_, ?_, ?_, ?_⟩
      · exact pairwise_maskInsert i _ gp hnotmem
      · intro u hu
        rcases (mem_maskInsert u i _).mp hu with rfl | hu2
        · exact hi
        · exact gb u hu2
      · show (bitSet (w.getEntity e).BitMask i).length = bitLen n
        rw [bitSet_length]; exact gl
      · intro j hj
        show bitGet (bitSet (w.getEntity e).BitMask i) j = true ↔
          j ∈ maskInsert (w.getEntity e).Mask i
        by_cases hij : i = j
        · rw [← hij]
          rw [bitGet_bitSet_self _ _ (by rw [gl]; exact div_chunk_lt_bitLen hi hn)]
          simp [mem_maskInsert]
        · rw [bitGet_bitSet_other _ _ _ hij, ga j hj, mem_maskInsert]
          have : ¬ j = i := fun hh => hij hh.symm
          tauto
    · rw [hgetother e' heq]
      exact hent e' he'
  · intro e' he'
    have he2 : e' ∈ w.recycledEntities := he'
    obtain ⟨p1, p2⟩ := hrec e' he2
    have hne : e' ≠ e := fun hh => hnrec (hh ▸ he2)
    rw [hgetother e' hne]
    exact ⟨by rw [hlenpre]; exact p1, p2⟩
  · exact hnd
  · rw [hgetself]
    show i ∈ maskInsert (w.getEntity e).Mask i
    rw [mem_maskInsert]
    exact Or.inl rfl
  · rw [hgetself]
    show bitGet (bitSet (w.getEntity e).BitMask i) i = true
    exact bitGet_bitSet_self _ _ (by rw [gl]; exact div_chunk_lt_bitLen hi hn)

theorem WorldInv_SetComp {n : Nat} (hn : n ≤ 65535) {w : World} {e : Entity}
    {i : Nat} (h : WorldInv n w) (halive : w.alive e) (hi : i < n) :
    WorldInv n (w.SetComp e i).1 := by
  unfold World.SetComp
  split
  · exact h
  · rename_i hbit
    simp only
    exact WorldInv_UpdateFilters
      (WorldInv_setCompPre hn h halive hi (by simpa using hbit)).1 e i true

theorem WorldInv_DelComp {n : Nat} (hn : n ≤ 65535) {w : World} {e : Entity}
    {i : Nat} (h : WorldInv n w) (halive : w.alive e) (hi : i < n) :
    WorldInv n (w.DelComp e i) := by
  unfold World.DelComp
  dsimp only
  split
  · rename_i hbit
    split
    · rename_i hlen1
      obtain ⟨hlen, hnrec⟩ := halive
      obtain ⟨hcc, hent, hrec, hnd⟩ := h
      obtain ⟨g1, g2, g3, gp, gb, gl, ga⟩ := hent e hlen
      have hmem : i ∈ (w.getEntity e).Mask := (ga i hi).mp hbit
      have hupd := WorldInv_UpdateFilters ⟨hcc, hent, hrec, hnd⟩ e i false
      obtain ⟨uE, uR, uC, _⟩ := UpdateFilters_preserves w e i false
      have hw2inv : WorldInv n ((w.UpdateFilters e i false).poolRecycleAt i e) :=
        WorldInv_of_eq_parts hupd rfl rfl rfl
      have hw2E : ((w.UpdateFilters e i false).poolRecycleAt i e).Entities =
          w.Entities := uE
      have hw2get : ∀ e',
          ((w.UpdateFilters e i false).poolRecycleAt i e).getEntity e' =
            w.getEntity e' := fun e' => getEntity_congr hw2E e'
      have hw2len : e < ((w.UpdateFilters e i false).poolRecycleAt i e).Entities.length := by
        rw [hw2E]; exact hlen
      have herase : maskRemove (w.getEntity e).Mask i = (w.getEntity e).Mask.erase i :=
        maskRemove_eq_erase i _ gp hmem
      have hndmask : (w.getEntity e).Mask.Nodup := pairwise_lt_nodup gp
      refine ⟨?_, ?_, ?_, ?_⟩
      · show ((w.UpdateFilters e i false).poolRecycleAt i e).componentsCount = n
        exact uC.trans hcc
      · intro e' he'
        have hlen' : e' < w.Entities.length := by
          have : e' < (((w.UpdateFilters e i false).poolRecycleAt i e).Entities.set e _).length := he'
          rw [List.length_set, hw2E] at this
          exact this
        by_cases heq : e' = e
        · rw [heq]
          rw [show (World.setEntityData _ e _).getEntity e = _ from
            getEntity_setEntityData_self _ _ _ hw2len]
          rw [hw2get e]
          refine ⟨g1, g2, g3, ?_, ?_, ?_, ?_⟩
          · show List.Pairwise (· < ·) (maskRemove (w.getEntity e).Mask i)
            rw [herase]
            exact gp.sublist (List.erase_sublist _ _)
          · intro u hu
            rw [herase] at hu
            exact gb u ((List.erase_sublist _ _).mem hu)
          · show (bitUnset (w.getEntity e).BitMask i).length = bitLen n
            rw [bitUnset_length]; exact gl
          · intro j hj
            show bitGet (bitUnset (w.getEntity e).BitMask i) j = true ↔
              j ∈ maskRemove (w.getEntity e).Mask i
            rw [herase]
            by_cases hij : i = j
            · rw [← hij,
                bitGet_bitUnset_self _ _ (by rw [gl]; exact div_chunk_lt_bitLen hi hn)]
              simp [hndmask.mem_erase_iff]
            · rw [bitGet_bitUnset_other _ _ _ hij, ga j hj,
                hndmask.mem_erase_iff]
              have : ¬ j = i := fun hh => hij hh.symm
              tauto
        · rw [show (World.setEntityData _ e _).getEntity e' = _ from
            getEntity_setEntityData_other _ _ _ _ (fun hh => heq hh.symm)]
          rw [hw2get e']
          exact hent e' hlen'
      · intro e' he'
        have he2 : e' ∈ w.recycledEntities := by
          have : e' ∈ ((w.UpdateFilters e i false).poolRecycleAt i e).recycledEntities := he'
          rw [show ((w.UpdateFilters e i false).poolRecycleAt i e).recycledEntities =
            w.recycledEntities from uR] at this
          exact this
        obtain ⟨p1, p2⟩ := hrec e' he2
        have hne : e' ≠ e := fun hh => hnrec (hh ▸ he2)
        rw [show (World.setEntityData _ e _).getEntity e' = _ from
          getEntity_setEntityData_other _ _ _ _ (fun hh => hne hh.symm)]
        rw [hw2get e']
        refine ⟨?_, p2⟩
        show e' < (((w.UpdateFilters e i false).poolRecycleAt i e).Entities.set e _).length
        rw [List.length_set, hw2E]
        exact p1
      · show (((w.UpdateFilters e i false).poolRecycleAt i e)).recycledEntities.Nodup
        rw [show ((w.UpdateFilters e i false).poolRecycleAt i e).recycledEntities =
          w.recycledEntities from uR]
        exact hnd
    · exact (DelEntity_spec hn h halive).1
  · exact h

theorem WorldInv_applyOp {n : Nat} (hn : n ≤ 65535) {w : World} {op : Op}
    (h : WorldInv n w) (hv : ValidOp w op) : WorldInv n (applyOp w op) := by
  cases op with
  | newEntity => exact WorldInv_NewEntity h
  | delEntity e => exact (DelEntity_spec hn h hv).1
  | setComp e i =>
    exact WorldInv_SetComp hn h hv.1 (by rw [← h.1]; exact hv.2)
  | delComp e i =>
    exact WorldInv_DelComp hn h hv.1 (by rw [← h.1]; exact hv.2)
  | lock j => exact WorldInv_of_eq_parts h rfl rfl rfl
  | unlock j => exact WorldInv_of_eq_parts h rfl rfl rfl

/-- Every reachable world state satisfies the entity-record invariant. -/
theorem Reachable_WorldInv {n : Nat} {specs : List (List Nat × List Nat)}
    {w : World} (hn : n ≤ 65535) (hr : Reachable n specs w) : WorldInv n w := by
  induction hr with
  | init => exact WorldInv_NewWorld n specs
  | step hr hv ih => exact WorldInv_applyOp hn ih hv

/-! ### Deferred-update machinery on filters (lock protocol) -/

/-- `k` nested `EntitiesWithLock` calls (dropping the returned views). -/
def Filter.lockN (f : Filter) : Nat → Filter
  | 0 => f
  | k + 1 => ((f.lockN k).EntitiesWithLock).2

/-- `k` successive `Unlock` calls. -/
def Filter.unlockN : Nat → Filter → Filter
  | 0, f => f
  | k + 1, f => Filter.unlockN k f.Unlock

theorem lockN_eq (f : Filter) (k : Nat) :
    f.lockN k = { f with lockCount := f.lockCount + k } := by
  induction k with
  | zero => simp [Filter.lockN]
  | succ k ih =>
    show ((f.lockN k).EntitiesWithLock).2 = _
    rw [ih]
    unfold Filter.EntitiesWithLock
    simp only
    push_cast
    rw [add_assoc]

theorem applyChange_locked (f : Filter) (c : Entity × Bool) (h : 0 < f.lockCount) :
    f.applyChange c = { f with lockedChanges := f.lockedChanges ++ [c] } := by
  unfold Filter.applyChange Filter.add Filter.remove
  rcases c with ⟨e, b⟩
  cases b <;> simp [h]

theorem applyChanges_locked (cs : List (Entity × Bool)) :
    ∀ f : Filter, 0 < f.lockCount →
      f.applyChanges cs = { f with lockedChanges := f.lockedChanges ++ cs } := by
  induction cs with
  | nil => intro f h; simp [Filter.applyChanges]
  | cons c cs ih =>
    intro f h
    show Filter.applyChanges (f.applyChange c) cs = _
    rw [applyChange_locked f c h]
    rw [ih _ (by simpa using h)]
    simp

theorem applyChange_queue_transfer (f : Filter) (c : Entity × Bool)
    (q : List (Entity × Bool)) (h : f.lockCount = 0) :
    Filter.applyChange { f with lockedChanges := q } c =
      { f.applyChange c with lockedChanges := q } := by
  unfold Filter.applyChange Filter.add Filter.remove Filter.addPure Filter.removePure
  rcases c with ⟨e, b⟩
  cases b <;> simp [h]

theorem applyChange_unlocked_lockCount (f : Filter) (c : Entity × Bool)
    (h : f.lockCount = 0) : (f.applyChange c).lockCount = 0 := by
  unfold Filter.applyChange Filter.add Filter.remove Filter.addPure Filter.removePure
  rcases c with ⟨e, b⟩
  cases b <;> simp [h]

theorem applyChanges_queue_transfer (cs : List (Entity × Bool)) :
    ∀ (f : Filter) (q : List (Entity × Bool)), f.lockCount = 0 →
      Filter.applyChanges { f with lockedChanges := q } cs =
        { f.applyChanges cs with lockedChanges := q } := by
  induction cs with
  | nil => intro f q h; rfl
  | cons c cs ih =>
    intro f q h
    show Filter.applyChanges (Filter.applyChange { f with lockedChanges := q } c) cs = _
    rw [applyChange_queue_transfer f c q h]
    exact ih (f.applyChange c) q (applyChange_unlocked_lockCount f c h)

theorem applyChanges_unlocked_queue_const (cs : List (Entity × Bool)) (f : Filter)
    (h : f.lockCount = 0) :
    (f.applyChanges cs).lockedChanges = f.lockedChanges := by
  have := applyChanges_queue_transfer cs f f.lockedChanges h
  have heta : ({ f with lockedChanges := f.lockedChanges } : Filter) = f := rfl
  rw [heta] at this
  rw [this]

theorem Unlock_decrement (f : Filter) (h : f.lockCount - 1 ≠ 0) :
    f.Unlock = { f with lockCount := f.lockCount - 1 } := by
  unfold Filter.Unlock
  simp only
  rw [if_neg h]

theorem Unlock_replay (f : Filter) (h : f.lockCount = 1) :
    f.Unlock =
      Filter.applyChanges { f with lockCount := 0, lockedChanges := [] }
        f.lockedChanges := by
  obtain ⟨fi, fx, fe, fm, fq, fl⟩ := f
  simp only at h
  subst h
  unfold Filter.Unlock
  norm_num
  show { Filter.applyChanges ⟨fi, fx, fe, fm, fq, 0⟩ fq with lockedChanges := [] } =
    Filter.applyChanges ⟨fi, fx, fe, fm, [], 0⟩ fq
  rw [applyChanges_queue_transfer fq ⟨fi, fx, fe, fm, [], 0⟩ fq rfl]
  have hq := applyChanges_unlocked_queue_const fq ⟨fi, fx, fe, fm, [], 0⟩ rfl
  set X := Filter.applyChanges ⟨fi, fx, fe, fm, [], 0⟩ fq with hX
  obtain ⟨gi, gx, ge, gm, gq, gl⟩ := X
  simp only at hq
  subst hq
  rfl

theorem unlockN_replay (k : Nat) (hk : 0 < k) (f : Filter) (hlc : f.lockCount = 0)
    (hq : f.lockedChanges = []) (cs : List (Entity × Bool)) :
    Filter.unlockN k { f with lockCount := (k : Int), lockedChanges := cs } =
      f.applyChanges cs := by
  obtain ⟨fi, fx, fe, fm, fq, fl⟩ := f
  simp only at hlc hq
  subst hlc
  subst hq
  induction k with
  | zero => omega
  | succ k ih =>
    rcases Nat.eq_zero_or_pos k with h0 | hpos
    · subst h0
      show Filter.Unlock ⟨fi, fx, fe, fm, cs, ((0 : Nat) + 1 : Nat)⟩ = _
      rw [Unlock_replay _ (by norm_num)]
    · show Filter.unlockN k
        (Filter.Unlock ⟨fi, fx, fe, fm, cs, ((k + 1 : Nat) : Int)⟩) = _
      rw [Unlock_decrement _ (by push_cast; omega)]
      have hstep : ({ (⟨fi, fx, fe, fm, cs, ((k + 1 : Nat) : Int)⟩ : Filter) with
          lockCount := ((k + 1 : Nat) : Int) - 1 } : Filter) =
          ⟨fi, fx, fe, fm, cs, (k : Int)⟩ := by
        simp only
        norm_num
      rw [hstep]
      exact ih hpos

/-- Deferred application under `k` nested locks followed by `k` unlocks gives
exactly the same filter state as eager application (the final unlock replays
the queued changes in recorded order and clears the queue). -/
theorem deferred_eq_eager (f : Filter) (cs : List (Entity × Bool)) (k : Nat)
    (hk : 0 < k) (hlc : f.lockCount = 0) (hq : f.lockedChanges = []) :
    Filter.unlockN k ((f.lockN k).applyChanges cs) = f.applyChanges cs := by
  have hlock : f.lockN k = { f with lockCount := (k : Int), lockedChanges := [] } := by
    rw [lockN_eq, hlc]
    obtain ⟨fi, fx, fe, fm, fq, fl⟩ := f
    simp only at hq
    subst hq
    simp
  rw [hlock]
  rw [applyChanges_locked cs _ (by simp only; omega)]
  have : ({ ({ f with lockCount := (k : Int), lockedChanges := [] } : Filter) with
      lockedChanges :=
        ({ f with lockCount := (k : Int), lockedChanges := [] } : Filter).lockedChanges
          ++ cs } : Filter) =
      { f with lockCount := (k : Int), lockedChanges := cs } := by
    simp
  rw [this]
  exact unlockN_replay k hk f hlc hq cs

/-! ### The single-slot destroy/create cycle (generation wraparound) -/

/-- A world with no component types and no filters. -/
def cycleStart : World := ((NewWorld 0 []).NewEntity).2

/-- Destroy slot 0, then create again (which reuses slot 0). -/
def cycle (w : World) : World := ((w.DelEntity 0).NewEntity).2

/-- The world after `k` destroy/create cycles of the single slot. -/
def cycleN : Nat → World
  | 0 => cycleStart
  | k + 1 => cycle (cycleN k)

/-- The canonical single-slot world whose slot is alive with generation `g`. -/
def mkCycleWorld (g : Int) : World :=
  { filters := [], componentsCount := 0,
    Entities := [{ Gen := g, BitMask := NewBitSet 0, Mask := [] }],
    recycledEntities := [], Pools := [] }

theorem cycleStart_eq : cycleStart = mkCycleWorld 1 := rfl

theorem cycle_mk (g : Int) :
    cycle (mkCycleWorld g) =
      mkCycleWorld (if wrap16 (g + 1) = 0 then 1 else wrap16 (g + 1)) := by
  have hgen2 : -32768 ≤ (if wrap16 (g + 1) = 0 then 1 else wrap16 (g + 1)) ∧
      (if wrap16 (g + 1) = 0 then 1 else wrap16 (g + 1)) ≤ 32767 := by
    obtain ⟨b1, b2⟩ := wrap16_bounds (g + 1)
    split <;> omega
  have hdel : (mkCycleWorld g).DelEntity 0 =
      { filters := [], componentsCount := 0,
        Entities := [{ Gen := wrap16 (-(if wrap16 (g + 1) = 0 then 1
                         else wrap16 (g + 1))),
                       BitMask := NewBitSet 0, Mask := [] }],
        recycledEntities := [0], Pools := [] } := rfl
  have hneg : wrap16 (-(wrap16 (-(if wrap16 (g + 1) = 0 then 1
      else wrap16 (g + 1))))) =
      (if wrap16 (g + 1) = 0 then 1 else wrap16 (g + 1)) := by
    rw [wrap16_neg_wrap16, neg_neg]
    exact wrap16_eq_self hgen2.1 hgen2.2
  show (((mkCycleWorld g).DelEntity 0).NewEntity).2 = _
  rw [hdel]
  show mkCycleWorld (wrap16 (-(wrap16 (-(if wrap16 (g + 1) = 0 then 1
    else wrap16 (g + 1)))))) = _
  rw [hneg]

theorem cycleN_eq : ∀ k : Nat, k ≤ 65534 →
    cycleN k = mkCycleWorld (wrap16 ((k : Int) + 1)) := by
  intro k
  induction k with
  | zero =>
    intro _
    show cycleStart = _
    rw [cycleStart_eq]
    norm_num [wrap16]
  | succ k ih =>
    intro hk
    have hk2 : k ≤ 65534 := by omega
    show cycle (cycleN k) = _
    rw [ih hk2, cycle_mk]
    have hnz : wrap16 ((k : Int) + 1 + 1) ≠ 0 := by
      rw [Ne, wrap16_eq_zero]
      omega
    rw [wrap16_add_left, if_neg hnz]
    have harg : (k : Int) + 1 + 1 = ((k + 1 : Nat) : Int) + 1 := by push_cast; ring
    rw [harg]

theorem cycleN_32767 : cycleN 32767 = mkCycleWorld (-32768) := by
  rw [cycleN_eq 32767 (by norm_num)]
  norm_num [wrap16]

theorem cycleN_65534 : cycleN 65534 = mkCycleWorld (-1) := by
  rw [cycleN_eq 65534 (by norm_num)]
  norm_num [wrap16]

theorem cycleN_gen_pos (k : Nat) (hk : k ≤ 32766) :
    ((cycleN k).getEntity 0).Gen = (k : Int) + 1 ∧ (cycleN k).alive 0 := by
  rw [cycleN_eq k (by omega)]
  constructor
  · show wrap16 ((k : Int) + 1) = (k : Int) + 1
    exact wrap16_eq_self (by omega) (by omega)
  · exact ⟨by norm_num [mkCycleWorld], by simp [mkCycleWorld]⟩

/-! ### Concrete bug-exhibiting worlds (one component type, one include filter) -/

/-- World with one component type and one filter including it. -/
def scenario1 : World := NewWorld 1 [([0], [])]

/-- Three entities 0,1,2 created and given the component: the filter's dense
sequence is `[0,1,2]`. -/
def wA : World := applyOps scenario1
  [.newEntity, .setComp 0 0, .newEntity, .setComp 1 0, .newEntity, .setComp 2 0]

/-- Detach from entity 0 (its only component): swap-with-last removal leaves
`[2,1]` but entity 2's map entry still says position 2. -/
def wB : World := wA.DelComp 0 0

/-- Detach from entity 2: its stale map index 2 is not `< lastIdx = 1`, so
the truncation drops entity 1 instead, leaving the destroyed entity 2 as the
sole "member". -/
def wC : World := wB.DelComp 2 0

/-- Two entities in the filter, then remove the first: the moved entity 1
sits at position 0 but stays mapped to 1. -/
def w6 : World := applyOps scenario1
  [.newEntity, .setComp 0 0, .newEntity, .setComp 1 0, .delComp 0 0]

/-- One-component world (no filters) with a single fresh entity. -/
def w9 : World := ((NewWorld 1 []).NewEntity).2

/-! ### Generation arithmetic after a destroy -/

theorem gen_after_del_ne (g : Int) (h1 : -32768 ≤ g) (h2 : g ≤ 32767)
    (h3 : g ≠ -1) :
    wrap16 (-(if wrap16 (g + 1) = 0 then 1 else wrap16 (g + 1))) ≠ g := by
  by_cases hz : wrap16 (g + 1) = 0
  · rw [if_pos hz]
    rw [wrap16_eq_zero] at hz
    have hg : g = -1 := by omega
    exact absurd hg h3
  · rw [if_neg hz, wrap16_neg_wrap16]
    unfold wrap16
    omega

theorem gen_after_reuse_ne (g : Int) (h1 : -32768 ≤ g) (h2 : g ≤ 32767) :
    (if wrap16 (g + 1) = 0 then 1 else wrap16 (g + 1)) ≠ g := by
  by_cases hz : wrap16 (g + 1) = 0
  · rw [if_pos hz]
    rw [wrap16_eq_zero] at hz
    have hg : g = -1 := by omega
    omega
  · rw [if_neg hz]
    unfold wrap16
    omega

/-! ### Claim theorems -/

/-- C1: the filter-correctness invariant (an entity is in a filter's dense
sequence iff its mask contains every include ID and no exclude ID) is
violated on the code: after three matching entities are created and the
first and third are detached (both valid operations, no lock held, filter
unlocked throughout), the destroyed entity 2 is still in the dense sequence
although its mask is empty, while the matching live entity 1 has been
dropped.  Root cause: `Filter.remove`'s swap-with-last removal never
refreshes the moved entity's `entitiesMap` entry, so the later removal
truncates the wrong element. -/
theorem C1_filter_invariant_violated :
    (wC.filters.getD 0 default).lockCount = 0 ∧
    (wC.filters.getD 0 default).incl = [0] ∧
    2 ∈ (wC.filters.getD 0 default).entities ∧
    (wC.getEntity 2).Mask = [] ∧
    wC.alive 1 ∧
    (∀ t ∈ (wC.filters.getD 0 default).incl, t ∈ (wC.getEntity 1).Mask) ∧
    (∀ t ∈ (wC.filters.getD 0 default).excl, t ∉ (wC.getEntity 1).Mask) ∧
    1 ∉ (wC.filters.getD 0 default).entities := by
  decide

/-- C2: deferred-update equivalence.  Starting from any unlocked filter with
an empty pending queue, issuing any sequence of noteAdd/noteRemove changes
under `k` nested locks and then unlocking `k` times yields exactly the same
filter state (dense sequence, position map, everything) as applying the
same changes eagerly with no lock held; the final unlock replays the queue
in recorded order. -/
theorem C2_deferred_update_equivalence (f : Filter) (cs : List (Entity × Bool))
    (k : Nat) (hk : 0 < k) (hlc : f.lockCount = 0) (hq : f.lockedChanges = []) :
    Filter.unlockN k ((f.lockN k).applyChanges cs) = f.applyChanges cs :=
  deferred_eq_eager f cs k hk hlc hq

/-- C2 witness: a concrete filter, three queued changes, two nested locks. -/
theorem C2_deferred_update_equivalence_witness :
    Filter.unlockN 2 (((NewFilter [0] []).lockN 2).applyChanges
        [(5, true), (6, true), (5, false)]) =
      (NewFilter [0] []).applyChanges [(5, true), (6, true), (5, false)] :=
  C2_deferred_update_equivalence (NewFilter [0] [])
    [(5, true), (6, true), (5, false)] 2 (by norm_num) rfl rfl

/-- C3 counterexample: after 65534 destroy/create cycles of a single slot
the alive generation is -1 (the `int16` orbit passes the `0 → 1` skip), and
a `PackedEntity` captured from the alive entity unpacks *successfully*
right after the entity is destroyed — the claim's "returns failure from the
destroy onward" is false for this reachable sequence. -/
theorem C3_counterexample_stale_unpack_succeeds :
    (cycleN 65534).alive 0 ∧
    ((cycleN 65534).getEntity 0).Gen = -1 ∧
    ((((cycleN 65534).DelEntity 0).UnpackEntity
      ((cycleN 65534).PackEntity 0))).2 = true := by
  rw [cycleN_65534]
  refine ⟨⟨by norm_num [mkCycleWorld], by simp [mkCycleWorld]⟩, rfl, ?_⟩
  decide

/-- C3 amended: if the captured generation is not the degenerate value -1
(reached only after 65534 destroys of the slot), unpacking fails
immediately after the destroy; and it fails immediately after the slot is
reused by the next create unconditionally. -/
theorem C3_amended_generational_safety {n : Nat}
    {specs : List (List Nat × List Nat)} {w : World} (hn : n ≤ 65535)
    (hr : Reachable n specs w) (e : Entity) (halive : w.alive e) :
    ((w.getEntity e).Gen ≠ -1 →
      ((w.DelEntity e).UnpackEntity (w.PackEntity e)) = (0, false)) ∧
    ((((w.DelEntity e).NewEntity).2).UnpackEntity (w.PackEntity e)) =
      (0, false) := by
  have hinv := Reachable_WorldInv hn hr
  obtain ⟨g1, g2, g3, _, _, _, _⟩ := hinv.2.1 e halive.1
  obtain ⟨jinv, jlen, jrec, jother, jmask, jgen⟩ := DelEntity_spec hn hinv halive
  have hpack : w.PackEntity e = ⟨(w.getEntity e).Gen, e⟩ := rfl
  constructor
  · intro hgen
    unfold World.UnpackEntity
    rw [hpack]
    rw [if_pos ?hne]
    case hne =>
      show (w.getEntity e).Gen ≠ ((w.DelEntity e).getEntity e).Gen
      rw [jgen]
      exact fun hh => gen_after_del_ne _ g1 g2 hgen hh.symm
  · have hlast : (w.DelEntity e).recycledEntities.getLast? = some e := by
      rw [jrec]
      exact List.getLast?_concat _
    have hlen1 : e < (w.DelEntity e).Entities.length := by
      rw [jlen]; exact halive.1
    unfold World.NewEntity
    rw [hlast]
    simp only
    have hget : ((w.DelEntity e).setEntityData e
        { (w.DelEntity e).getEntity e with
            Gen := wrap16 (-((w.DelEntity e).getEntity e).Gen) }).getEntity e =
        { (w.DelEntity e).getEntity e with
            Gen := wrap16 (-((w.DelEntity e).getEntity e).Gen) } :=
      getEntity_setEntityData_self _ _ _ hlen1
    unfold World.UnpackEntity
    rw [hpack]
    rw [if_pos ?hne2]
    case hne2 =>
      show (w.getEntity e).Gen ≠ _
      rw [show ({ (w.DelEntity e).setEntityData e
          { (w.DelEntity e).getEntity e with
              Gen := wrap16 (-((w.DelEntity e).getEntity e).Gen) } with
          recycledEntities := (w.DelEntity e).recycledEntities.dropLast } :
            World).getEntity e =
          { (w.DelEntity e).getEntity e with
              Gen := wrap16 (-((w.DelEntity e).getEntity e).Gen) } from hget]
      show (w.getEntity e).Gen ≠ wrap16 (-((w.DelEntity e).getEntity e).Gen)
      rw [jgen, wrap16_neg_wrap16, neg_neg]
      have hb := wrap16_bounds ((w.getEntity e).Gen + 1)
      rw [wrap16_eq_self (by split <;> omega) (by split <;> omega)]
      exact fun hh => gen_after_reuse_ne _ g1 g2 hh.symm

/-- C3 amended witness: a single fresh entity (generation 1). -/
theorem C3_amended_generational_safety_witness :
    ((cycleStart.getEntity 0).Gen ≠ -1 →
      ((cycleStart.DelEntity 0).UnpackEntity (cycleStart.PackEntity 0)) =
        (0, false)) ∧
    ((((cycleStart.DelEntity 0).NewEntity).2).UnpackEntity
      (cycleStart.PackEntity 0)) = (0, false) := by
  have hr : Reachable 0 [] cycleStart := by
    have h0 : Reachable 0 [] (applyOp (NewWorld 0 []) Op.newEntity) :=
      Reachable.step Reachable.init trivial
    exact h0
  exact C3_amended_generational_safety (by norm_num) hr 0 (by decide)

/-- C4: for a packed entity whose index is a valid slot, unpacking succeeds
iff the stored generation equals the record's current generation; on
mismatch the result is exactly `(0, false)` (an explicit failure value, not
a fault), and on match it returns the index with `true`. -/
theorem C4_unpack_contract (w : World) (p : PackedEntity)
    (hidx : p.idx < w.Entities.length) :
    ((w.UnpackEntity p).2 = true ↔ p.gen = (w.getEntity p.idx).Gen) ∧
    (p.gen ≠ (w.getEntity p.idx).Gen → w.UnpackEntity p = (0, false)) ∧
    (p.gen = (w.getEntity p.idx).Gen → w.UnpackEntity p = (p.idx, true)) := by
  unfold World.UnpackEntity
  by_cases h : p.gen = (w.getEntity p.idx).Gen
  · rw [if_neg (not_not_intro h)]
    simp [h]
  · rw [if_pos h]
    simp [h]

/-- C4 witness: the fresh single-entity world, matching and mismatching
generations. -/
theorem C4_unpack_contract_witness :
    (((cycleStart.UnpackEntity ⟨1, 0⟩).2 = true ↔
      (1 : Int) = (cycleStart.getEntity 0).Gen) ∧
     ((1 : Int) ≠ (cycleStart.getEntity 0).Gen →
      cycleStart.UnpackEntity ⟨1, 0⟩ = (0, false)) ∧
     ((1 : Int) = (cycleStart.getEntity 0).Gen →
      cycleStart.UnpackEntity ⟨1, 0⟩ = (0, true))) :=
  C4_unpack_contract cycleStart ⟨1, 0⟩ (by decide)

/-- C5: call convention of `UpdateFilters`.  (1) In the generated attach
accessor, at the moment `UpdateFilters` is invoked the type is already in
the entity's sorted mask and its bitmap bit is set, and `Set<C>` is exactly
`UpdateFilters` applied to that pre-updated state.  (2) In the generated
detach accessor, the type is still in the mask at call time (the call
receives the unshrunk state) and is gone from the mask once the accessor
returns.  (3) Each iteration of the `DelEntity` unwind loop calls
`UpdateFilters` with the current last mask element, which is in the mask at
that call and removed by the iteration. -/
theorem C5_update_filters_call_convention {n : Nat}
    {specs : List (List Nat × List Nat)} {w : World} (hn : n ≤ 65535)
    (hr : Reachable n specs w) (e : Entity) (i : Nat) (halive : w.alive e)
    (hi : i < n) :
    (bitGet (w.getEntity e).BitMask i = false →
      i ∈ ((w.setCompPre e i).getEntity e).Mask ∧
      bitGet ((w.setCompPre e i).getEntity e).BitMask i = true ∧
      (w.SetComp e i).1 = (w.setCompPre e i).UpdateFilters e i true) ∧
    (bitGet (w.getEntity e).BitMask i = true →
      i ∈ (w.getEntity e).Mask ∧
      i ∉ ((w.DelComp e i).getEntity e).Mask) ∧
    (∀ (v : World) (t : Nat), e < v.Entities.length →
      List.Pairwise (· < ·) ((v.getEntity e).Mask) →
      (v.getEntity e).Mask.getLast? = some t →
      t ∈ (v.getEntity e).Mask ∧
      t ∉ ((v.delStep e t).getEntity e).Mask) := by
  have hinv := Reachable_WorldInv hn hr
  obtain ⟨hcc, hent, hrec, hnd⟩ := hinv
  obtain ⟨g1, g2, g3, gp, gb, gl, ga⟩ := hent e halive.1
  refine ⟨?_, ?_, ?_⟩
  · intro hbit
    obtain ⟨_, hm, hb⟩ := WorldInv_setCompPre hn ⟨hcc, hent, hrec, hnd⟩ halive hi hbit
    refine ⟨hm, hb, ?_⟩
    unfold World.SetComp
    rw [if_neg (by rw [hbit]; simp)]
  · intro hbit
    have hmem : i ∈ (w.getEntity e).Mask := (ga i hi).mp hbit
    refine ⟨hmem, ?_⟩
    unfold World.DelComp
    dsimp only
    rw [if_pos hbit]
    split
    · obtain ⟨uE, _, _, _⟩ := UpdateFilters_preserves w e i false
      have hw2E : ((w.UpdateFilters e i false).poolRecycleAt i e).Entities =
          w.Entities := uE
      have hw2len :
          e < ((w.UpdateFilters e i false).poolRecycleAt i e).Entities.length := by
        rw [hw2E]; exact halive.1
      rw [getEntity_setEntityData_self _ _ _ hw2len]
      show i ∉ maskRemove
        (((w.UpdateFilters e i false).poolRecycleAt i e).getEntity e).Mask i
      rw [getEntity_congr hw2E]
      rw [maskRemove_eq_erase i _ gp hmem]
      intro hmem2
      exact absurd ((pairwise_lt_nodup gp).mem_erase_iff.mp hmem2).1 (by simp)
    · rw [(DelEntity_spec hn ⟨hcc, hent, hrec, hnd⟩ halive).2.2.2.2.1]
      simp
  · intro v t hvlen hvp hvlast
    refine ⟨mem_of_getLast?_eq hvlast, ?_⟩
    have hE := delStep_Entities v e t
    have hget : (v.delStep e t).getEntity e =
        { v.getEntity e with
            Mask := (v.getEntity e).Mask.dropLast
            BitMask := bitUnset (v.getEntity e).BitMask t } := by
      unfold World.getEntity
      rw [hE]
      exact getD_set_self _ _ _ _ hvlen
    rw [hget]
    show t ∉ (v.getEntity e).Mask.dropLast
    exact getLast_not_mem_dropLast (pairwise_lt_nodup hvp) hvlast

/-- C5 witness: a one-component world with one fresh entity; both bitmap
states and a concrete mask exercise the three parts. -/
theorem C5_update_filters_call_convention_witness :
    (bitGet (w9.getEntity 0).BitMask 0 = false →
      0 ∈ ((w9.setCompPre 0 0).getEntity 0).Mask ∧
      bitGet ((w9.setCompPre 0 0).getEntity 0).BitMask 0 = true ∧
      (w9.SetComp 0 0).1 = (w9.setCompPre 0 0).UpdateFilters 0 0 true) ∧
    (bitGet (w9.getEntity 0).BitMask 0 = true →
      0 ∈ (w9.getEntity 0).Mask ∧
      0 ∉ ((w9.DelComp 0 0).getEntity 0).Mask) ∧
    (∀ (v : World) (t : Nat), 0 < v.Entities.length →
      List.Pairwise (· < ·) ((v.getEntity 0).Mask) →
      (v.getEntity 0).Mask.getLast? = some t →
      t ∈ (v.getEntity 0).Mask ∧
      t ∉ ((v.delStep 0 t).getEntity 0).Mask) := by
  have hr : Reachable 1 [] w9 := by
    have h0 : Reachable 1 [] (applyOp (NewWorld 1 []) Op.newEntity) :=
      Reachable.step Reachable.init trivial
    exact h0
  exact C5_update_filters_call_convention (by norm_num) hr 0 0 (by decide)
    (by norm_num)

/-- C6: the position map is *not* the inverse of the dense sequence after a
swap-with-last removal: with members `[0,1]`, removing entity 0 moves
entity 1 to position 0, but the code never rewrites the moved entity's map
entry, which still reads 1.  The claim's statement that the moved entity is
remapped to its new position is false on the code. -/
theorem C6_entitiesMap_not_inverse :
    (w6.filters.getD 0 default).lockCount = 0 ∧
    (w6.filters.getD 0 default).entities = [1] ∧
    mapGet (w6.filters.getD 0 default).entitiesMap 1 = some 1 := by
  decide

/-- C7: while a filter's lock counter is positive, `add`/`remove` (and any
sequence of such changes) leave the dense sequence, the position map and
`Count` untouched, only appending to the pending queue; hence the sequence
returned by `EntitiesWithLock` is unchanged for the whole locked scope. -/
theorem C7_locked_filter_unchanged (f : Filter) (e : Entity)
    (hlock : 0 < f.lockCount) :
    ((f.add e).entities = f.entities ∧ (f.add e).entitiesMap = f.entitiesMap ∧
      (f.add e).Count = f.Count ∧
      (f.add e).lockedChanges = f.lockedChanges ++ [(e, true)]) ∧
    ((f.remove e).entities = f.entities ∧
      (f.remove e).entitiesMap = f.entitiesMap ∧
      (f.remove e).Count = f.Count ∧
      (f.remove e).lockedChanges = f.lockedChanges ++ [(e, false)]) ∧
    (∀ cs : List (Entity × Bool),
      (f.applyChanges cs).entities = f.entities ∧
      (f.applyChanges cs).entitiesMap = f.entitiesMap ∧
      (f.applyChanges cs).Count = f.Count) := by
  have hadd : f.add e = { f with lockedChanges := f.lockedChanges ++ [(e, true)] } := by
    unfold Filter.add
    rw [if_pos hlock]
  have hrem : f.remove e =
      { f with lockedChanges := f.lockedChanges ++ [(e, false)] } := by
    unfold Filter.remove
    rw [if_pos hlock]
  refine ⟨?_, ?_, ?_⟩
  · rw [hadd]; exact ⟨rfl, rfl, rfl, rfl⟩
  · rw [hrem]; exact ⟨rfl, rfl, rfl, rfl⟩
  · intro cs
    rw [applyChanges_locked cs f hlock]
    exact ⟨rfl, rfl, rfl⟩

/-- C7 witness: a locked filter with one member. -/
theorem C7_locked_filter_unchanged_witness :
    (((⟨[0], [], [7], [(7, 0)], [], 1⟩ : Filter).add 8).entities = [7] ∧
      ((⟨[0], [], [7], [(7, 0)], [], 1⟩ : Filter).add 8).entitiesMap = [(7, 0)] ∧
      ((⟨[0], [], [7], [(7, 0)], [], 1⟩ : Filter).add 8).Count =
        (⟨[0], [], [7], [(7, 0)], [], 1⟩ : Filter).Count ∧
      ((⟨[0], [], [7], [(7, 0)], [], 1⟩ : Filter).add 8).lockedChanges =
        [] ++ [(8, true)]) ∧
    (((⟨[0], [], [7], [(7, 0)], [], 1⟩ : Filter).remove 8).entities = [7] ∧
      ((⟨[0], [], [7], [(7, 0)], [], 1⟩ : Filter).remove 8).entitiesMap =
        [(7, 0)] ∧
      ((⟨[0], [], [7], [(7, 0)], [], 1⟩ : Filter).remove 8).Count =
        (⟨[0], [], [7], [(7, 0)], [], 1⟩ : Filter).Count ∧
      ((⟨[0], [], [7], [(7, 0)], [], 1⟩ : Filter).remove 8).lockedChanges =
        [] ++ [(8, false)]) ∧
    (∀ cs : List (Entity × Bool),
      (((⟨[0], [], [7], [(7, 0)], [], 1⟩ : Filter)).applyChanges cs).entities =
        [7] ∧
      (((⟨[0], [], [7], [(7, 0)], [], 1⟩ : Filter)).applyChanges cs).entitiesMap =
        [(7, 0)] ∧
      (((⟨[0], [], [7], [(7, 0)], [], 1⟩ : Filter)).applyChanges cs).Count =
        (⟨[0], [], [7], [(7, 0)], [], 1⟩ : Filter).Count) :=
  C7_locked_filter_unchanged ⟨[0], [], [7], [(7, 0)], [], 1⟩ 8 (by norm_num)

/-- C8: detaching the only component of the alive entity 2 does route to
`DelEntity` and destroys the entity (empty mask, negated generation, slot
recycled) — but, contrary to the claim, the entity's per-filter membership
is *not* removed: the filter (unlocked throughout) still lists the
destroyed entity 2, because entity 2's `entitiesMap` entry went stale when
entity 0 was removed earlier, so the swap-with-last removal truncated the
wrong element. -/
theorem C8_detach_last_destroys_but_membership_stays :
    wB.alive 2 ∧
    (wB.getEntity 2).Mask = [0] ∧
    wB.DelComp 2 0 = wB.DelEntity 2 ∧
    ((wB.DelComp 2 0).getEntity 2).Mask = [] ∧
    ((wB.DelComp 2 0).getEntity 2).Gen < 0 ∧
    (wB.DelComp 2 0).recycledEntities = wB.recycledEntities ++ [2] ∧
    ((wB.DelComp 2 0).filters.getD 0 default).lockCount = 0 ∧
    2 ∈ ((wB.DelComp 2 0).filters.getD 0 default).entities := by
  decide

/-- C9 counterexample: the generated pool stores the component of entity
`e` at pool index `e` itself; for the first entity that index is 0, so pool
slot 0 *is* handed out for a really attached component (there is no
reserved index-0 sentinel in this per-entity-indexed pool layout). -/
theorem C9_counterexample_slot_zero_used :
    (w9.SetComp 0 0).2 = 0 ∧
    0 ∈ ((w9.SetComp 0 0).1.getEntity 0).Mask ∧
    bitGet (((w9.SetComp 0 0).1.getEntity 0).BitMask) 0 = true := by
  decide

/-- C9 amended: the pool slot backing entity `e`'s component of any type is
always `e` itself (both the attach and read accessors address
`(*pool)[entity]`), so two different alive entities never share a slot of
the same pool; but pool index 0 is used by entity 0 rather than reserved. -/
theorem C9_amended_slot_is_entity_index (w w' : World) (e e' : Entity)
    (i i' : Nat) :
    (w.SetComp e i).2 = e ∧
    (w.GetComp e i = some e ∨ w.GetComp e i = none) ∧
    (e ≠ e' → (w.SetComp e i).2 ≠ (w'.SetComp e' i').2) := by
  have hslot : ∀ (v : World) (a : Entity) (j : Nat), (v.SetComp a j).2 = a := by
    intro v a j
    unfold World.SetComp
    split <;> rfl
  refine ⟨hslot w e i, ?_, ?_⟩
  · unfold World.GetComp
    split
    · exact Or.inl rfl
    · exact Or.inr rfl
  · intro hne
    rw [hslot w e i, hslot w' e' i']
    exact hne

/-- C9 amended witness: two distinct entities get distinct slots. -/
theorem C9_amended_slot_is_entity_index_witness :
    ((w9.SetComp 0 0).2 = 0 ∧
     (w9.GetComp 0 0 = some 0 ∨ w9.GetComp 0 0 = none) ∧
     ((0 : Entity) ≠ 1 → (w9.SetComp 0 0).2 ≠ (w9.SetComp 1 0).2)) :=
  C9_amended_slot_is_entity_index w9 w9 0 1 0 0

/-- C10 counterexample: after 32767 destroy/create cycles of a single slot
the slot is alive (created, not in the recycled pool) yet its generation is
-32768: Go `int16` increment wraps 32767 to -32768 and the negation of
-32768 is itself, so "positive exactly when alive" fails once the 16-bit
generation range is exhausted. -/
theorem C10_counterexample_sign_liveness_broken :
    (cycleN 32767).alive 0 ∧ ((cycleN 32767).getEntity 0).Gen = -32768 := by
  rw [cycleN_32767]
  exact ⟨⟨by norm_num [mkCycleWorld], by simp [mkCycleWorld]⟩, rfl⟩

/-- C10 amended: in every reachable world the generation field is never
zero (the `0 → 1` skip in `DelEntity` keeps it so even across wraparound);
and as long as a slot has seen at most 32766 destroys, the sign encodes
liveness with the magnitude incrementing per destroy: after `k` single-slot
destroy/create cycles the alive generation is exactly `k + 1`.  (At the
32767th destroy the encoding breaks, see the counterexample.) -/
theorem C10_amended_generation_law :
    (∀ (n : Nat) (specs : List (List Nat × List Nat)) (w : World),
      n ≤ 65535 → Reachable n specs w →
      ∀ e, e < w.Entities.length → (w.getEntity e).Gen ≠ 0) ∧
    (∀ k : Nat, k ≤ 32766 →
      ((cycleN k).getEntity 0).Gen = (k : Int) + 1 ∧ (cycleN k).alive 0) := by
  constructor
  · intro n specs w hn hr e he
    exact ((Reachable_WorldInv hn hr).2.1 e he).2.2.1
  · exact cycleN_gen_pos

/-- C10 amended witness: three cycles give generation 4; the fresh
single-entity world has nonzero generation. -/
theorem C10_amended_generation_law_witness :
    (((cycleN 3).getEntity 0).Gen = ((3 : Nat) : Int) + 1 ∧
      (cycleN 3).alive 0) ∧
    (cycleStart.getEntity 0).Gen ≠ 0 := by
  have hr : Reachable 0 [] cycleStart := by
    have h0 : Reachable 0 [] (applyOp (NewWorld 0 []) Op.newEntity) :=
      Reachable.step Reachable.init trivial
    exact h0
  exact ⟨C10_amended_generation_law.2 3 (by norm_num),
    C10_amended_generation_law.1 0 [] cycleStart (by norm_num) hr 0 (by decide)⟩

end Ecs
